import Mathlib

/-!
Verification development for the block-timestamp resolution subsystem of the
ethereum-evm-client SDK (`src/utils/blockTime.ts`).

The TypeScript module is shallowly embedded as follows:

* Block numbers and UNIX timestamps are `Int` (the source obtains them via
  `parseInt` and only ever adds, subtracts and compares them).
* The one fractional quantity, `averageBlockTime`, is a `JSNumber`: an
  unreduced quotient `num / den` of two integers.  Every JS expression the
  source stores in it has exactly that shape (a quotient of two integer
  expressions).  This represents the idealized real-number value of the JS
  float (the spec models it as "optional rational number"), and it also
  represents the JS non-finite corner cases exactly: `den = 0, num ≠ 0` is
  `±Infinity` and `num = den = 0` is `NaN`, which lets JS truthiness
  (`!x`: false for `±Infinity`, true for `0` and `NaN`) and strict equality
  (`x === 0`: true for `±0` only, false for `NaN`) both be translated
  faithfully.  `JSNumber.toRat` interprets a finite value in `ℚ`; bridge
  lemmas below relate each operation to its `ℚ` counterpart.
* The fetch collaborator `ethMethods.getBlockByNumber` (excluded transport
  layer) is a parameter: a `Chain` gives the block returned for each numeric
  identifier and for the `'latest'` tag.
* The `async` self-recursions (`findOptimalBlock`, `calculateNextBlock`) are
  not structurally terminating (and indeed do not terminate in general, see
  the C3 counterexample), so they take an explicit fuel argument and return
  `none` on fuel exhaustion, alongside the state reached so far.
* Mutation of the session `State` is explicit state passing.
-/

/-- The value of a JS floating-point expression `a / b` with integer operands,
kept as the unreduced pair.  `den = 0` encodes the non-finite results of a JS
division by zero. -/
structure JSNumber where
  num : Int
  den : Int
  deriving DecidableEq

/-- The rational value of a finite `JSNumber` (junk, namely `0`, when
`den = 0`). -/
def JSNumber.toRat (q : JSNumber) : ℚ := (q.num : ℚ) / (q.den : ℚ)

/-- JS `x / y` for integer-valued `x`, `y`. -/
def jsDiv (a b : Int) : JSNumber := ⟨a, b⟩

/-- JS falsiness of a number (`!x`): true exactly for `0`, `-0` and `NaN`,
i.e. exactly when the numerator is zero. -/
def JSNumber.isFalsy (q : JSNumber) : Bool := decide (q.num = 0)

/-- JS strict equality `x === 0`: true for `±0`, false for every other value
including `NaN`. -/
def JSNumber.isZero (q : JSNumber) : Bool := decide (q.num = 0 ∧ q.den ≠ 0)

/-- JS `d / q` for an integer-valued `d` and a `JSNumber` `q`:
`d / (num/den) = (d * den) / num`. -/
def JSNumber.divInt (d : Int) (q : JSNumber) : JSNumber := ⟨d * q.den, q.num⟩

/-- JS `Math.ceil` on a finite `JSNumber` (junk, namely `0`, when `den = 0`).
Lean's `Int` division `/` rounds toward `-∞` for a positive divisor, so
`⌈a/b⌉ = -((-a)/b)` for `b > 0`. -/
def JSNumber.ceil (q : JSNumber) : Int :=
  if 0 < q.den then -((-q.num) / q.den)
  else if q.den < 0 then -(q.num / (-q.den))
  else 0

/-- JS `Math.abs` on a `JSNumber` (note `|a/b| = |a|/|b|`, also for the
non-finite encodings). -/
def JSNumber.abs (q : JSNumber) : JSNumber :=
  ⟨if q.num < 0 then -q.num else q.num, if q.den < 0 then -q.den else q.den⟩

/-- A fetched block record, as built in `fetchBlockInfo` (blockTime.ts:34-37):
`{ block: parseInt(number, 16), timestamp: parseInt(timestamp, 16) }`. -/
structure Block where
  block : Int
  timestamp : Int
  deriving DecidableEq

/-- Cache key of `state.cachedBlocks`: the string form of a block number, or
the `'latest'` tag (blockTime.ts:25). -/
inductive BlockId where
  | num (n : Int)
  | latest
  deriving DecidableEq

/-- The mutable session state threaded through every function of the module
(`State` of `ethereumClient`, as used by blockTime.ts). -/
structure State where
  cachedBlocks : List (BlockId × Block)
  checkedBlocks : Int → List Int
  firstBlock : Option Block
  latestBlock : Option Block
  averageBlockTime : Option JSNumber
  requests : Int

/-- The fetch collaborator: what `ethMethods.getBlockByNumber` answers for a
numeric identifier and for the `'latest'` tag. -/
structure Chain where
  blocks : Int → Block
  latest : Block

/-- Dispatch a fetch to the collaborator by identifier kind. -/
def chainFetch (c : Chain) : BlockId → Block
  | BlockId.num n => c.blocks n
  | BlockId.latest => c.latest

/-- A fresh session state: empty cache, empty probe history, no boundaries. -/
def initState : State :=
  { cachedBlocks := []
    checkedBlocks := fun _ => []
    firstBlock := none
    latestBlock := none
    averageBlockTime := none
    requests := 0 }

/-- Lookup of `state.cachedBlocks[blockKey]` (blockTime.ts:27). -/
def lookupCache (cache : List (BlockId × Block)) (k : BlockId) : Option Block :=
  (cache.find? (fun e => decide (e.1 = k))).map (fun e => e.2)

/-- `blockTime.fetchBlockInfo` (blockTime.ts:21-42): return the cached block
for the identifier if present; otherwise ask the collaborator, cache the
result and bump the request counter. -/
def fetchBlockInfo (c : Chain) (b : BlockId) (state : State) : Block × State :=
  match lookupCache state.cachedBlocks b with
  | some blk => (blk, state)
  | none =>
    let result := chainFetch c b
    (result,
      { state with
          cachedBlocks := (b, result) :: state.cachedBlocks
          requests := state.requests + 1 })

/-- `blockTime.initializeBoundaries` (blockTime.ts:53-62): fetch the `'latest'`
and number-1 blocks, store them, and set
`averageBlockTime = (latest.timestamp - first.timestamp) / (latest.block - 1)`.
There is no guard on the denominator and no failure path in the source. -/
def initializeBoundaries (c : Chain) (state : State) : State :=
  let fl := fetchBlockInfo c BlockId.latest state
  let state := { fl.2 with latestBlock := some fl.1 }
  let ff := fetchBlockInfo c (BlockId.num 1) state
  let state := { ff.2 with firstBlock := some ff.1 }
  match state.latestBlock, state.firstBlock with
  | some l, some f =>
    { state with
        averageBlockTime :=
          some (jsDiv (l.timestamp - f.timestamp) (l.block - 1)) }
  | _, _ => state

/-- The head clamp of `calculateNextBlock` (blockTime.ts:84-85):
`if (state.latestBlock && nextBlock > state.latestBlock.block) nextBlock =
state.latestBlock.block`. -/
def clampToHead (latestBlock : Option Block) (nextBlock : Int) : Int :=
  match latestBlock with
  | some lb => if nextBlock > lb.block then lb.block else nextBlock
  | none => nextBlock

/-- `blockTime.calculateNextBlock` (blockTime.ts:76-103): candidate is
`currentBlock + skip`, clamped to the chain head; if the candidate was already
probed for this timestamp, retry with the skip pushed one further away from
zero; otherwise register the (unclamped) candidate in the probe history and
return it clamped up to 1.  Fuel models the unbounded self-recursion. -/
def calculateNextBlock (fuel : Nat) (timestamp currentBlock skip : Int)
    (state : State) : Option Int × State :=
  match fuel with
  | 0 => (none, state)
  | fuel + 1 =>
    let nextBlock := clampToHead state.latestBlock (currentBlock + skip)
    if nextBlock ∈ state.checkedBlocks timestamp then
      calculateNextBlock fuel timestamp currentBlock
        (if skip < 0 then skip - 1 else skip + 1) state
    else
      let state :=
        { state with
            checkedBlocks := fun t =>
              if t = timestamp then state.checkedBlocks timestamp ++ [nextBlock]
              else state.checkedBlocks t }
      (some (if nextBlock < 1 then 1 else nextBlock), state)

/-- `blockTime.isOptimalBlock` (blockTime.ts:116-134): the candidate is optimal
iff its timestamp is at or after the target and its predecessor's fetched
timestamp is strictly before the target.  The predecessor is fetched only when
the first test passes. -/
def isOptimalBlock (c : Chain) (timestamp : Int) (predictedBlock : Block)
    (state : State) : Bool × State :=
  if predictedBlock.timestamp ≥ timestamp then
    let fp := fetchBlockInfo c (BlockId.num (predictedBlock.block - 1)) state
    (decide (fp.1.timestamp < timestamp), fp.2)
  else (false, state)

/-- The skip derivation of `findOptimalBlock` (blockTime.ts:154-158):
`skip = Math.ceil(difference / (averageBlockTime === 0 ? 1 : averageBlockTime))`,
coerced to `±1` when the ceiling is `0`.  When `averageBlockTime` is undefined
the JS strict comparison `=== 0` is false and the division by `undefined`
poisons the arithmetic with `NaN`; that case is modelled as `none` (it is
unreachable from `getBlockFromTimestamp`, which always initializes the
average first). -/
def computeSkip (timestamp predictedTimestamp : Int) (avg : Option JSNumber) :
    Option Int :=
  match avg with
  | none => none
  | some a =>
    let difference : Int := timestamp - predictedTimestamp
    let skip : Int :=
      (JSNumber.divInt difference (if a.isZero then jsDiv 1 1 else a)).ceil
    some (if skip = 0 then (if difference < 0 then -1 else 1) else skip)

/-- `blockTime.findOptimalBlock` (blockTime.ts:147-180): return the candidate's
number if it is optimal; otherwise derive a skip, obtain the next candidate
from `calculateNextBlock`, fetch it, update
`averageBlockTime = Math.abs((pb.timestamp - next.timestamp) / (pb.block -
next.block))` (no zero-denominator guard in the source), and recurse. -/
def findOptimalBlock (c : Chain) (fuel : Nat) (timestamp : Int)
    (predictedBlock : Block) (state : State) : Option Int × State :=
  match fuel with
  | 0 => (none, state)
  | fuel + 1 =>
    let opt := isOptimalBlock c timestamp predictedBlock state
    if opt.1 then (some predictedBlock.block, opt.2)
    else
      match computeSkip timestamp predictedBlock.timestamp
          opt.2.averageBlockTime with
      | none => (none, opt.2)
      | some skip =>
        let nxt := calculateNextBlock fuel timestamp predictedBlock.block skip
          opt.2
        match nxt.1 with
        | none => (none, nxt.2)
        | some nb =>
          let fn := fetchBlockInfo c (BlockId.num nb) nxt.2
          let nextPredictedBlock := fn.1
          let state :=
            { fn.2 with
                averageBlockTime :=
                  some ((jsDiv
                      (predictedBlock.timestamp - nextPredictedBlock.timestamp)
                      (predictedBlock.block - nextPredictedBlock.block)).abs) }
          findOptimalBlock c fuel timestamp nextPredictedBlock state

/-- `blockTime.formatResult` (blockTime.ts:235-242): the returned record pairs
the *input* timestamp with the resolved block number. -/
def formatResult (timestamp block : Int) : Block :=
  { timestamp := timestamp, block := block }

/-- The JS truthiness test of blockTime.ts:196:
`!state.firstBlock || !state.latestBlock || !state.averageBlockTime`
(a zero (or NaN) average is falsy and also triggers re-initialization). -/
def needsInit (state : State) : Bool :=
  state.firstBlock.isNone || state.latestBlock.isNone ||
    (match state.averageBlockTime with
     | none => true
     | some a => a.isFalsy)

/-- Guard of blockTime.ts:200:
`state.firstBlock && timestamp < state.firstBlock.timestamp`. -/
def isBeforeFirst (state : State) (timestamp : Int) : Bool :=
  match state.firstBlock with
  | some fb => decide (timestamp < fb.timestamp)
  | none => false

/-- Guard of blockTime.ts:204:
`state.latestBlock && timestamp >= state.latestBlock.timestamp`. -/
def isAtOrAfterLatest (state : State) (timestamp : Int) : Bool :=
  match state.latestBlock with
  | some lb => decide (timestamp ≥ lb.timestamp)
  | none => false

/-- Lines 208-220 of blockTime.ts: seed `checkedBlocks[timestamp] = []`,
interpolate the initial guess
`Math.ceil((timestamp - firstBlock!.timestamp) / averageBlockTime!)`, fetch it
and run the search loop.  The non-null assertions hold on every path from
`getBlockFromTimestamp` (the preceding branch initializes both fields); a
state violating them would crash the JS, modelled as `none`. -/
def searchPhase (c : Chain) (fuel : Nat) (timestamp : Int) (state : State) :
    Option Int × State :=
  let state :=
    { state with
        checkedBlocks := fun t =>
          if t = timestamp then [] else state.checkedBlocks t }
  match state.firstBlock, state.averageBlockTime with
  | some fb, some a =>
    let guess : Int := (JSNumber.divInt (timestamp - fb.timestamp) a).ceil
    let fg := fetchBlockInfo c (BlockId.num guess) state
    findOptimalBlock c fuel timestamp fg.1 fg.2
  | _, _ => (none, state)

/-- `blockTime.getBlockFromTimestamp` (blockTime.ts:192-223): ensure the
boundaries are initialized, answer boundary queries immediately (block `1`
below the first block's timestamp, the latest block at or above the latest
timestamp), and otherwise run the interpolation search; every successful
result goes through `formatResult`. -/
def getBlockFromTimestamp (c : Chain) (fuel : Nat) (timestamp : Int)
    (state : State) : Option Block × State :=
  let state := if needsInit state then initializeBoundaries c state else state
  if isBeforeFirst state timestamp then
    (some (formatResult timestamp 1), state)
  else if isAtOrAfterLatest state timestamp then
    match state.latestBlock with
    | some lb => (some (formatResult timestamp lb.block), state)
    | none => (none, state)
  else
    let r := searchPhase c fuel timestamp state
    match r.1 with
    | some n => (some (formatResult timestamp n), r.2)
    | none => (none, r.2)

/-- The chain of the spec's concrete scenario: block `k` has timestamp
`1000 + 10 * k`, head at block `100`. -/
def chain100 : Chain :=
  { blocks := fun n => { block := n, timestamp := 1000 + 10 * n }
    latest := { block := 100, timestamp := 2000 } }

/-- The collaborator answers a numeric identifier with a block carrying that
number (the `eth_getBlockByNumber` contract). -/
def ChainOk (c : Chain) : Prop :=
  ∀ n : Int, (c.blocks n).block = n

/-- Every cache entry agrees with what the collaborator would answer (true of
every state reachable from a fresh session against a fixed chain). -/
def CacheOk (c : Chain) (s : State) : Prop :=
  ∀ e ∈ s.cachedBlocks, e.2 = chainFetch c e.1

/-- The stored boundary blocks, when present, are the chain's boundary
blocks. -/
def BoundariesOk (c : Chain) (s : State) : Prop :=
  (∀ b, s.firstBlock = some b → b = c.blocks 1) ∧
    (∀ b, s.latestBlock = some b → b = c.latest)

theorem toRat_jsDiv (a b : Int) : (jsDiv a b).toRat = (a : ℚ) / (b : ℚ) := rfl

/-- `JSNumber.ceil` computes the true rational ceiling whenever the
denominator is nonzero. -/
theorem JSNumber.ceil_eq_ceil (q : JSNumber) (h : q.den ≠ 0) :
    q.ceil = ⌈q.toRat⌉ := by
  have hceil_floor : ∀ x : ℚ, ⌈x⌉ = -⌊-x⌋ := by
    intro x
    have := Int.floor_neg (α := ℚ) (a := x)
    omega
  obtain ⟨a, b⟩ := q
  rcases lt_trichotomy b 0 with hb | hb | hb
  · have hb' : (0 : Int) < -b := by omega
    have hnat : ((-b).toNat : Int) = -b := Int.toNat_of_nonneg hb'.le
    have hcast : ((((-b).toNat : ℕ)) : ℚ) = ((-b : Int) : ℚ) := by
      exact_mod_cast hnat
    have hfloor : ⌊((a : ℚ) / ((-b : Int) : ℚ))⌋ = a / (-b) := by
      rw [← hcast, Rat.floor_intCast_div_natCast, hnat]
    have hval : JSNumber.toRat ⟨a, b⟩ = -((a : ℚ) / ((-b : Int) : ℚ)) := by
      unfold JSNumber.toRat
      push_cast
      rw [div_neg, neg_neg]
    rw [hval, Int.ceil_neg, hfloor]
    unfold JSNumber.ceil
    simp only [if_neg (by omega : ¬ (0:Int) < b), if_pos hb]
  · exact absurd hb h
  · have hnat : (b.toNat : Int) = b := Int.toNat_of_nonneg hb.le
    have hcast : (((b.toNat : ℕ)) : ℚ) = ((b : Int) : ℚ) := by
      exact_mod_cast hnat
    have hfloor : ⌊(((-a : Int) : ℚ) / ((b : Int) : ℚ))⌋ = (-a) / b := by
      rw [← hcast, Rat.floor_intCast_div_natCast, hnat]
    have hceil : ⌈JSNumber.toRat ⟨a, b⟩⌉ = -((-a) / b) := by
      rw [hceil_floor]
      unfold JSNumber.toRat
      rw [← hfloor]
      congr 1
      push_cast
      rw [neg_div]
    rw [hceil]
    unfold JSNumber.ceil
    simp only [if_pos hb]

/-- `JSNumber.abs` computes the rational absolute value (also through the
`den = 0` junk case, where both sides are `0`). -/
theorem JSNumber.toRat_abs (q : JSNumber) : q.abs.toRat = |q.toRat| := by
  obtain ⟨a, b⟩ := q
  unfold JSNumber.abs JSNumber.toRat
  rw [abs_div]
  have ha : ((if a < 0 then -a else a : Int) : ℚ) = |(a : ℚ)| := by
    split <;> rename_i h
    · push_cast
      rw [abs_of_neg]
      exact_mod_cast Int.cast_lt_zero.mpr h
    · rw [abs_of_nonneg]
      exact_mod_cast Int.cast_nonneg.mpr (by omega)
  have hb : ((if b < 0 then -b else b : Int) : ℚ) = |(b : ℚ)| := by
    split <;> rename_i h
    · push_cast
      rw [abs_of_neg]
      exact_mod_cast Int.cast_lt_zero.mpr h
    · rw [abs_of_nonneg]
      exact_mod_cast Int.cast_nonneg.mpr (by omega)
  rw [ha, hb]

/-- `JSNumber.divInt` computes the rational quotient (also through the junk
cases, where both sides are `0`). -/
theorem JSNumber.toRat_divInt (d : Int) (q : JSNumber) :
    (JSNumber.divInt d q).toRat = (d : ℚ) / q.toRat := by
  obtain ⟨a, b⟩ := q
  unfold JSNumber.divInt JSNumber.toRat
  rcases eq_or_ne a 0 with ha | ha
  · subst ha
    push_cast
    simp
  · rcases eq_or_ne b 0 with hb | hb
    · subst hb
      push_cast
      simp
    · push_cast
      rw [div_div_eq_mul_div]

/-- `JSNumber.isZero` decides vanishing of the rational value when the
denominator is nonzero. -/
theorem JSNumber.isZero_iff (q : JSNumber) (h : q.den ≠ 0) :
    q.isZero = true ↔ q.toRat = 0 := by
  obtain ⟨a, b⟩ := q
  unfold JSNumber.isZero JSNumber.toRat
  have hb' : ((b : ℚ)) ≠ 0 := Int.cast_ne_zero.mpr h
  rw [decide_eq_true_eq, div_eq_zero_iff]
  constructor
  · rintro ⟨ha, -⟩
    exact Or.inl (by exact_mod_cast Int.cast_eq_zero.mpr ha)
  · rintro (ha | hb)
    · exact ⟨by exact_mod_cast ha, h⟩
    · exact absurd hb hb'

theorem cacheOk_of_eq {c : Chain} {s s' : State}
    (h : s'.cachedBlocks = s.cachedBlocks) (hc : CacheOk c s) : CacheOk c s' := by
  intro e he
  exact hc e (h ▸ he)

theorem lookupCache_some {cache : List (BlockId × Block)} {k : BlockId}
    {blk : Block} (h : lookupCache cache k = some blk) : (k, blk) ∈ cache := by
  unfold lookupCache at h
  rcases Option.map_eq_some'.mp h with ⟨e, hfind, hsnd⟩
  have hmem := List.mem_of_find?_eq_some hfind
  have hp := List.find?_some hfind
  have hk : e.1 = k := of_decide_eq_true hp
  have : e = (k, blk) := by
    obtain ⟨e1, e2⟩ := e
    simp only at hk hsnd
    rw [hk, hsnd]
  exact this ▸ hmem

theorem fetchBlockInfo_fst (c : Chain) (b : BlockId) (s : State)
    (h : CacheOk c s) : (fetchBlockInfo c b s).1 = chainFetch c b := by
  unfold fetchBlockInfo
  split
  · rename_i blk heq
    exact (h _ (lookupCache_some heq)).symm ▸ rfl
  · rfl

theorem fetchBlockInfo_cacheOk (c : Chain) (b : BlockId) (s : State)
    (h : CacheOk c s) : CacheOk c (fetchBlockInfo c b s).2 := by
  unfold fetchBlockInfo
  split
  · exact h
  · intro e he
    rcases List.mem_cons.mp he with he | he
    · rw [he]
    · exact h e he

theorem fetchBlockInfo_fields (c : Chain) (b : BlockId) (s : State) :
    (fetchBlockInfo c b s).2.checkedBlocks = s.checkedBlocks ∧
    (fetchBlockInfo c b s).2.firstBlock = s.firstBlock ∧
    (fetchBlockInfo c b s).2.latestBlock = s.latestBlock ∧
    (fetchBlockInfo c b s).2.averageBlockTime = s.averageBlockTime := by
  unfold fetchBlockInfo
  split
  · exact ⟨rfl, rfl, rfl, rfl⟩
  · exact ⟨rfl, rfl, rfl, rfl⟩

theorem calculateNextBlock_fields : ∀ (fuel : Nat) (t cb sk : Int) (s : State),
    (calculateNextBlock fuel t cb sk s).2.cachedBlocks = s.cachedBlocks ∧
    (calculateNextBlock fuel t cb sk s).2.firstBlock = s.firstBlock ∧
    (calculateNextBlock fuel t cb sk s).2.latestBlock = s.latestBlock ∧
    (calculateNextBlock fuel t cb sk s).2.averageBlockTime =
      s.averageBlockTime := by
  intro fuel
  induction fuel with
  | zero => exact fun t cb sk s => ⟨rfl, rfl, rfl, rfl⟩
  | succ fuel ih =>
    intro t cb sk s
    simp only [calculateNextBlock]
    split
    · exact ih t cb _ s
    · exact ⟨rfl, rfl, rfl, rfl⟩

theorem isOptimalBlock_fields (c : Chain) (t : Int) (pb : Block) (s : State) :
    (isOptimalBlock c t pb s).2.checkedBlocks = s.checkedBlocks ∧
    (isOptimalBlock c t pb s).2.firstBlock = s.firstBlock ∧
    (isOptimalBlock c t pb s).2.latestBlock = s.latestBlock ∧
    (isOptimalBlock c t pb s).2.averageBlockTime = s.averageBlockTime := by
  unfold isOptimalBlock
  split
  · exact fetchBlockInfo_fields c _ s
  · exact ⟨rfl, rfl, rfl, rfl⟩

theorem isOptimalBlock_cacheOk (c : Chain) (t : Int) (pb : Block) (s : State)
    (h : CacheOk c s) : CacheOk c (isOptimalBlock c t pb s).2 := by
  unfold isOptimalBlock
  split
  · exact fetchBlockInfo_cacheOk c _ s h
  · exact h

theorem isOptimalBlock_true (c : Chain) (t : Int) (pb : Block) (s : State)
    (h : CacheOk c s) (htrue : (isOptimalBlock c t pb s).1 = true) :
    t ≤ pb.timestamp ∧ (c.blocks (pb.block - 1)).timestamp < t := by
  simp only [isOptimalBlock] at htrue
  split at htrue
  · rename_i hge
    refine ⟨hge, ?_⟩
    rw [fetchBlockInfo_fst c _ s h] at htrue
    exact of_decide_eq_true htrue
  · exact absurd htrue (by simp)

/-- Partial correctness of the search loop: whatever candidate sequence it
takes, a successful return satisfies the optimality predicate of
`isOptimalBlock` with respect to the chain. -/
theorem findOptimalBlock_sound (c : Chain) (hchain : ChainOk c) :
    ∀ (fuel : Nat) (t : Int) (pb : Block) (s : State) (B : Int) (s' : State),
      CacheOk c s → pb = c.blocks pb.block →
      findOptimalBlock c fuel t pb s = (some B, s') →
      t ≤ (c.blocks B).timestamp ∧ (c.blocks (B - 1)).timestamp < t := by
  intro fuel
  induction fuel with
  | zero =>
    intro t pb s B s' _ _ h
    exact absurd h (by simp [findOptimalBlock])
  | succ fuel ih =>
    intro t pb s B s' hcache hpb h
    simp only [findOptimalBlock] at h
    by_cases hopt : (isOptimalBlock c t pb s).1 = true
    · rw [if_pos hopt] at h
      have hBB : pb.block = B := by
        have := congrArg Prod.fst h
        simpa using this
      obtain ⟨h1, h2⟩ := isOptimalBlock_true c t pb s hcache hopt
      subst hBB
      refine ⟨?_, h2⟩
      rw [← hpb]
      exact h1
    · rw [if_neg hopt] at h
      cases hskip : computeSkip t pb.timestamp
          (isOptimalBlock c t pb s).2.averageBlockTime with
      | none =>
        simp only [hskip] at h
        exact absurd (congrArg Prod.fst h) (by simp)
      | some skip =>
        simp only [hskip] at h
        cases hnxt : (calculateNextBlock fuel t pb.block skip
            (isOptimalBlock c t pb s).2).1 with
        | none =>
          simp only [hnxt] at h
          exact absurd (congrArg Prod.fst h) (by simp)
        | some nb =>
          simp only [hnxt] at h
          have hc1 : CacheOk c (isOptimalBlock c t pb s).2 :=
            isOptimalBlock_cacheOk c t pb s hcache
          have hc2 : CacheOk c (calculateNextBlock fuel t pb.block skip
              (isOptimalBlock c t pb s).2).2 :=
            cacheOk_of_eq (calculateNextBlock_fields fuel t pb.block skip _).1
              hc1
          have hfst : (fetchBlockInfo c (BlockId.num nb)
              (calculateNextBlock fuel t pb.block skip
                (isOptimalBlock c t pb s).2).2).1 = c.blocks nb :=
            fetchBlockInfo_fst c _ _ hc2
          have hc3 : CacheOk c (fetchBlockInfo c (BlockId.num nb)
              (calculateNextBlock fuel t pb.block skip
                (isOptimalBlock c t pb s).2).2).2 :=
            fetchBlockInfo_cacheOk c _ _ hc2
          refine ih t _ _ B s' ?_ ?_ h
          · exact cacheOk_of_eq rfl hc3
          · rw [hfst, hchain nb]

/-- Every value the search loop writes into `averageBlockTime` is the absolute
value of a quotient of integers; the field is otherwise left unchanged. -/
theorem findOptimalBlock_avgWrite (c : Chain) :
    ∀ (fuel : Nat) (t : Int) (pb : Block) (s : State),
      (findOptimalBlock c fuel t pb s).2.averageBlockTime =
        s.averageBlockTime ∨
      ∃ x y : Int,
        (findOptimalBlock c fuel t pb s).2.averageBlockTime =
          some ((jsDiv x y).abs) := by
  intro fuel
  induction fuel with
  | zero => exact fun t pb s => Or.inl rfl
  | succ fuel ih =>
    intro t pb s
    simp only [findOptimalBlock]
    by_cases hopt : (isOptimalBlock c t pb s).1 = true
    · rw [if_pos hopt]
      exact Or.inl (isOptimalBlock_fields c t pb s).2.2.2
    · rw [if_neg hopt]
      cases hskip : computeSkip t pb.timestamp
          (isOptimalBlock c t pb s).2.averageBlockTime with
      | none =>
        simp only [hskip]
        exact Or.inl (isOptimalBlock_fields c t pb s).2.2.2
      | some skip =>
        simp only [hskip]
        cases hnxt : (calculateNextBlock fuel t pb.block skip
            (isOptimalBlock c t pb s).2).1 with
        | none =>
          simp only [hnxt]
          refine Or.inl ?_
          rw [(calculateNextBlock_fields fuel t pb.block skip _).2.2.2]
          exact (isOptimalBlock_fields c t pb s).2.2.2
        | some nb =>
          simp only [hnxt]
          rcases ih t _ _ with hsame | hw
          · rw [hsame]
            exact Or.inr ⟨_, _, rfl⟩
          · exact Or.inr hw

/-- Unconditional behaviour of `initializeBoundaries`: it never fails, always
stores both boundary blocks, and always assigns the average as the quotient of
the stored blocks' timestamp gap by `latest.block - 1`. -/
theorem initializeBoundaries_always (c : Chain) (s : State) :
    ∃ lb fb : Block,
      (initializeBoundaries c s).latestBlock = some lb ∧
      (initializeBoundaries c s).firstBlock = some fb ∧
      (initializeBoundaries c s).averageBlockTime =
        some (jsDiv (lb.timestamp - fb.timestamp) (lb.block - 1)) := by
  simp only [initializeBoundaries]
  have hlb : (fetchBlockInfo c (BlockId.num 1)
      { (fetchBlockInfo c BlockId.latest s).2 with
          latestBlock := some (fetchBlockInfo c BlockId.latest s).1
        }).2.latestBlock =
      some (fetchBlockInfo c BlockId.latest s).1 :=
    (fetchBlockInfo_fields c _ _).2.2.1
  simp only [hlb]
  exact ⟨_, _, rfl, rfl, rfl⟩

/-- Behaviour of `initializeBoundaries` against a fixed chain, from any
cache-consistent state: the chain's boundary blocks are stored, the average
becomes their timestamp gap over `latest.block - 1`, and the cache stays
consistent; the probe history is untouched. -/
theorem initializeBoundaries_spec (c : Chain) (s : State) (hcache : CacheOk c s) :
    (initializeBoundaries c s).firstBlock = some (c.blocks 1) ∧
    (initializeBoundaries c s).latestBlock = some c.latest ∧
    (initializeBoundaries c s).averageBlockTime =
      some (jsDiv (c.latest.timestamp - (c.blocks 1).timestamp)
        (c.latest.block - 1)) ∧
    CacheOk c (initializeBoundaries c s) ∧
    (initializeBoundaries c s).checkedBlocks = s.checkedBlocks := by
  have hfl : (fetchBlockInfo c BlockId.latest s).1 = c.latest :=
    fetchBlockInfo_fst c _ s hcache
  have hcl : CacheOk c { (fetchBlockInfo c BlockId.latest s).2 with
      latestBlock := some (fetchBlockInfo c BlockId.latest s).1 } :=
    cacheOk_of_eq rfl (fetchBlockInfo_cacheOk c _ s hcache)
  have hff : (fetchBlockInfo c (BlockId.num 1)
      { (fetchBlockInfo c BlockId.latest s).2 with
          latestBlock := some (fetchBlockInfo c BlockId.latest s).1 }).1 =
      c.blocks 1 :=
    fetchBlockInfo_fst c _ _ hcl
  have hcf : CacheOk c (fetchBlockInfo c (BlockId.num 1)
      { (fetchBlockInfo c BlockId.latest s).2 with
          latestBlock := some (fetchBlockInfo c BlockId.latest s).1 }).2 :=
    fetchBlockInfo_cacheOk c _ _ hcl
  have hlb : (fetchBlockInfo c (BlockId.num 1)
      { (fetchBlockInfo c BlockId.latest s).2 with
          latestBlock := some (fetchBlockInfo c BlockId.latest s).1
        }).2.latestBlock =
      some (fetchBlockInfo c BlockId.latest s).1 :=
    (fetchBlockInfo_fields c _ _).2.2.1
  have hchk : (fetchBlockInfo c (BlockId.num 1)
      { (fetchBlockInfo c BlockId.latest s).2 with
          latestBlock := some (fetchBlockInfo c BlockId.latest s).1
        }).2.checkedBlocks = s.checkedBlocks := by
    rw [(fetchBlockInfo_fields c _ _).1]
    exact (fetchBlockInfo_fields c _ _).1
  simp only [initializeBoundaries, hlb]
  refine ⟨congrArg some hff, congrArg some hfl, ?_, cacheOk_of_eq rfl hcf, hchk⟩
  have h3 : some (jsDiv ((fetchBlockInfo c BlockId.latest s).1.timestamp -
        (fetchBlockInfo c (BlockId.num 1)
          { (fetchBlockInfo c BlockId.latest s).2 with
              latestBlock := some (fetchBlockInfo c BlockId.latest s).1
            }).1.timestamp)
        ((fetchBlockInfo c BlockId.latest s).1.block - 1)) =
      some (jsDiv (c.latest.timestamp - (c.blocks 1).timestamp)
        (c.latest.block - 1)) := by
    rw [hff, hfl]
  exact h3

/-- After the lazy-initialization step of `getBlockFromTimestamp`, both
boundary blocks are the chain's, some average is present, and the cache is
still consistent. -/
theorem ensureBoundaries_spec (c : Chain) (s : State) (hcache : CacheOk c s)
    (hbound : BoundariesOk c s) :
    (if needsInit s then initializeBoundaries c s else s).firstBlock =
      some (c.blocks 1) ∧
    (if needsInit s then initializeBoundaries c s else s).latestBlock =
      some c.latest ∧
    (∃ a, (if needsInit s then initializeBoundaries c s else s).averageBlockTime
      = some a) ∧
    CacheOk c (if needsInit s then initializeBoundaries c s else s) := by
  by_cases hni : needsInit s = true
  · rw [if_pos hni]
    obtain ⟨h1, h2, h3, h4, _⟩ := initializeBoundaries_spec c s hcache
    exact ⟨h1, h2, ⟨_, h3⟩, h4⟩
  · rw [if_neg hni]
    simp only [needsInit, Bool.or_eq_true, not_or] at hni
    obtain ⟨⟨hf, hl⟩, ha⟩ := hni
    obtain ⟨fb, hfb⟩ := Option.ne_none_iff_exists'.mp
      (show s.firstBlock ≠ none from fun hnone => hf (by rw [hnone]; rfl))
    obtain ⟨lb, hlb⟩ := Option.ne_none_iff_exists'.mp
      (show s.latestBlock ≠ none from fun hnone => hl (by rw [hnone]; rfl))
    obtain ⟨a, hav⟩ : ∃ a, s.averageBlockTime = some a := by
      cases hv : s.averageBlockTime with
      | none => rw [hv] at ha; exact absurd rfl ha
      | some a => exact ⟨a, rfl⟩
    refine ⟨?_, ?_, ⟨a, hav⟩, hcache⟩
    · rw [hfb, hbound.1 fb hfb]
    · rw [hlb, hbound.2 lb hlb]

/-- Full characterization of a successful `getBlockFromTimestamp` call against
a fixed chain from a well-formed session state: the result carries the input
timestamp, and its block number is block `1` below the first block's
timestamp, the head at or above the head's timestamp, and an optimality
witness strictly in between. -/
theorem getBlock_characterization (c : Chain) (fuel : Nat) (t : Int)
    (s : State) (b : Block) (s' : State) (hchain : ChainOk c)
    (hcache : CacheOk c s) (hbound : BoundariesOk c s)
    (h : getBlockFromTimestamp c fuel t s = (some b, s')) :
    b.timestamp = t ∧
    ((t < (c.blocks 1).timestamp ∧ b.block = 1) ∨
     ((c.blocks 1).timestamp ≤ t ∧ c.latest.timestamp ≤ t ∧
       b.block = c.latest.block) ∨
     ((c.blocks 1).timestamp ≤ t ∧ t < c.latest.timestamp ∧
       t ≤ (c.blocks b.block).timestamp ∧
       (c.blocks (b.block - 1)).timestamp < t)) := by
  obtain ⟨h1, h2, ⟨a, h3⟩, h4⟩ := ensureBoundaries_spec c s hcache hbound
  simp only [getBlockFromTimestamp] at h
  by_cases hbf : isBeforeFirst (if needsInit s then initializeBoundaries c s
      else s) t = true
  · rw [if_pos hbf] at h
    have hb : formatResult t 1 = b := Option.some.inj (congrArg Prod.fst h)
    have hlt : t < (c.blocks 1).timestamp := by
      unfold isBeforeFirst at hbf
      rw [h1] at hbf
      exact of_decide_eq_true hbf
    exact ⟨by rw [← hb]; rfl, Or.inl ⟨hlt, by rw [← hb]; rfl⟩⟩
  · rw [if_neg hbf] at h
    have hge : (c.blocks 1).timestamp ≤ t := by
      unfold isBeforeFirst at hbf
      rw [h1] at hbf
      simpa using hbf
    by_cases hal : isAtOrAfterLatest (if needsInit s
        then initializeBoundaries c s else s) t = true
    · rw [if_pos hal] at h
      simp only [h2] at h
      have hb : formatResult t c.latest.block = b :=
        Option.some.inj (congrArg Prod.fst h)
      have hlt : c.latest.timestamp ≤ t := by
        unfold isAtOrAfterLatest at hal
        rw [h2] at hal
        exact of_decide_eq_true hal
      exact ⟨by rw [← hb]; rfl, Or.inr (Or.inl ⟨hge, hlt, by rw [← hb]; rfl⟩)⟩
    · rw [if_neg hal] at h
      have hlt : t < c.latest.timestamp := by
        unfold isAtOrAfterLatest at hal
        rw [h2] at hal
        simpa using hal
      cases hsp : (searchPhase c fuel t (if needsInit s
          then initializeBoundaries c s else s)).1 with
      | none =>
        simp only [hsp] at h
        exact absurd (congrArg Prod.fst h) (by simp)
      | some B =>
        simp only [hsp] at h
        have hb : formatResult t B = b := Option.some.inj (congrArg Prod.fst h)
        refine ⟨by rw [← hb]; rfl, Or.inr (Or.inr ⟨hge, hlt, ?_⟩)⟩
        have hbB : b.block = B := by rw [← hb]; rfl
        rw [hbB]
        simp only [searchPhase] at hsp
        split at hsp
        · rename_i fb a2 hfb hav
          rw [h1] at hfb
          rw [h3] at hav
          have hfb' : fb = c.blocks 1 := (Option.some.inj hfb).symm
          have hav' : a2 = a := (Option.some.inj hav).symm
          subst hfb'
          subst hav'
          have hc2 : CacheOk c
              { (if needsInit s then initializeBoundaries c s else s) with
                  checkedBlocks := fun u =>
                    if u = t then []
                    else (if needsInit s then initializeBoundaries c s
                      else s).checkedBlocks u } :=
            cacheOk_of_eq rfl h4
          refine findOptimalBlock_sound c hchain fuel t _ _ B _
            (fetchBlockInfo_cacheOk c _ _ hc2) ?_ (Prod.ext hsp rfl)
          rw [fetchBlockInfo_fst c _ _ hc2]
          simp only [chainFetch]
          rw [hchain]
        · simp at hsp

theorem cacheOk_initState (c : Chain) : CacheOk c initState := by
  intro e he
  simp [initState] at he

theorem boundariesOk_initState (c : Chain) : BoundariesOk c initState :=
  ⟨fun b hb => by simp [initState] at hb, fun b hb => by simp [initState] at hb⟩

/-- C1: for every target timestamp strictly between the first block's and the
latest block's timestamps, the block number returned by a successful
resolution satisfies the optimality predicate: the block fetched for it has
timestamp at or above the target and the block fetched for its predecessor
has timestamp strictly below the target. -/
theorem c1_optimality (c : Chain) (fuel : Nat) (t : Int) (b : Block)
    (s' : State) (hchain : ChainOk c)
    (hlo : (c.blocks 1).timestamp < t) (hhi : t < c.latest.timestamp)
    (h : getBlockFromTimestamp c fuel t initState = (some b, s')) :
    t ≤ (c.blocks b.block).timestamp ∧
      (c.blocks (b.block - 1)).timestamp < t := by
  obtain ⟨-, hcases⟩ := getBlock_characterization c fuel t initState b s'
    hchain (cacheOk_initState c) (boundariesOk_initState c) h
  rcases hcases with ⟨hlt, -⟩ | ⟨-, hge, -⟩ | ⟨-, -, hopt1, hopt2⟩
  · omega
  · omega
  · exact ⟨hopt1, hopt2⟩

/-- C1 witness: on the 100-block chain with timestamps `1000 + 10k`, resolving
`1325` returns block 33, whose timestamp 1330 is at or above 1325 while block
32 has timestamp 1320 below it. -/
theorem c1_optimality_witness :
    (1325 : Int) ≤ (chain100.blocks ((Block.mk 33 1325).block)).timestamp ∧
      (chain100.blocks ((Block.mk 33 1325).block - 1)).timestamp < 1325 :=
  c1_optimality chain100 5 1325 (Block.mk 33 1325)
    ((getBlockFromTimestamp chain100 5 1325 initState).2)
    (fun _ => rfl) (by decide) (by decide) rfl

/-- C2 counterexample: on the spec's concrete chain (block `k` has timestamp
`1000 + 10k`), resolving `T = 1325` does not return block 32. -/
theorem c2_counterexample :
    ((getBlockFromTimestamp chain100 5 1325 initState).1.map Block.block) ≠
      some 32 := by decide

/-- C2 amended: on that chain the resolver returns block 33 — the first block
with timestamp at or above 1325, per the code's optimality predicate — with
the input timestamp echoed in the result. -/
theorem c2_resolved_block :
    (getBlockFromTimestamp chain100 5 1325 initState).1 =
      some { block := 33, timestamp := 1325 } := by decide

/-- C4: from a fresh session on a chain whose first block is not later than
its head, a target below the first block's timestamp resolves to block 1 and
a target at or above the head's timestamp resolves to the head's number —
with any fuel, including zero, i.e. without entering the search loop. -/
theorem c4_boundaries (c : Chain) (fuel : Nat) (t : Int)
    (horder : (c.blocks 1).timestamp ≤ c.latest.timestamp) :
    (t < (c.blocks 1).timestamp →
      (getBlockFromTimestamp c fuel t initState).1 =
        some (formatResult t 1)) ∧
    (c.latest.timestamp ≤ t →
      (getBlockFromTimestamp c fuel t initState).1 =
        some (formatResult t c.latest.block)) := by
  obtain ⟨h1, h2, ⟨a, h3⟩, h4⟩ := ensureBoundaries_spec c initState
    (cacheOk_initState c) (boundariesOk_initState c)
  constructor
  · intro hlt
    simp only [getBlockFromTimestamp]
    have hbf : isBeforeFirst (if needsInit initState
        then initializeBoundaries c initState else initState) t = true := by
      unfold isBeforeFirst
      rw [h1]
      exact decide_eq_true hlt
    rw [if_pos hbf]
  · intro hge
    simp only [getBlockFromTimestamp]
    have hbf : ¬ isBeforeFirst (if needsInit initState
        then initializeBoundaries c initState else initState) t = true := by
      unfold isBeforeFirst
      rw [h1]
      simp only [decide_eq_true_eq]
      omega
    rw [if_neg hbf]
    have hal : isAtOrAfterLatest (if needsInit initState
        then initializeBoundaries c initState else initState) t = true := by
      unfold isAtOrAfterLatest
      rw [h2]
      exact decide_eq_true hge
    rw [if_pos hal]
    simp only [h2]

/-- C4 witness: on the concrete chain, `T = 500` (below the first timestamp
1010) resolves to block 1 and `T = 5000` (above the head timestamp 2000)
resolves to block 100 — both already with fuel 0. -/
theorem c4_boundaries_witness :
    (getBlockFromTimestamp chain100 0 500 initState).1 =
      some (formatResult 500 1) ∧
    (getBlockFromTimestamp chain100 0 5000 initState).1 =
      some (formatResult 5000 chain100.latest.block) :=
  ⟨(c4_boundaries chain100 0 500 (by decide)).1 (by decide),
   (c4_boundaries chain100 0 5000 (by decide)).2 (by decide)⟩

/-- C10: every successful resolution result carries the input target timestamp
in its `timestamp` field (set by `formatResult`), regardless of the resolved
block's on-chain timestamp. -/
theorem c10_timestamp_echo (c : Chain) (fuel : Nat) (t : Int) (s : State)
    (b : Block) (s' : State)
    (h : getBlockFromTimestamp c fuel t s = (some b, s')) :
    b.timestamp = t := by
  simp only [getBlockFromTimestamp] at h
  by_cases hbf : isBeforeFirst (if needsInit s then initializeBoundaries c s
      else s) t = true
  · rw [if_pos hbf] at h
    have hb := Option.some.inj (congrArg Prod.fst h)
    rw [← hb]
    rfl
  · rw [if_neg hbf] at h
    by_cases hal : isAtOrAfterLatest (if needsInit s
        then initializeBoundaries c s else s) t = true
    · rw [if_pos hal] at h
      cases hlb : (if needsInit s then initializeBoundaries c s
          else s).latestBlock with
      | none =>
        simp only [hlb] at h
        exact absurd (congrArg Prod.fst h) (by simp)
      | some lb =>
        simp only [hlb] at h
        have hb := Option.some.inj (congrArg Prod.fst h)
        rw [← hb]
        rfl
    · rw [if_neg hal] at h
      cases hsp : (searchPhase c fuel t (if needsInit s
          then initializeBoundaries c s else s)).1 with
      | none =>
        simp only [hsp] at h
        exact absurd (congrArg Prod.fst h) (by simp)
      | some B =>
        simp only [hsp] at h
        have hb := Option.some.inj (congrArg Prod.fst h)
        rw [← hb]
        rfl

/-- C10 witness: the resolution of `1325` on the concrete chain returns the
record `{block := 33, timestamp := 1325}`, whose timestamp field is the input
1325 (not the on-chain 1330). -/
theorem c10_timestamp_echo_witness :
    (getBlockFromTimestamp chain100 5 1325 initState).1 =
      some (Block.mk 33 1325) ∧ (Block.mk 33 1325).timestamp = 1325 :=
  ⟨by decide,
   c10_timestamp_echo chain100 5 1325 initState (Block.mk 33 1325)
     ((getBlockFromTimestamp chain100 5 1325 initState).2) rfl⟩

/-- A mid-search state in which block 1 has already been probed for target 50
(as happens after any earlier probe of block 1 for that target). -/
def probedOneState : State :=
  { cachedBlocks := []
    checkedBlocks := fun u => if u = 50 then [1] else []
    firstBlock := none
    latestBlock := none
    averageBlockTime := none
    requests := 0 }

/-- C5 counterexample: calling the step calculator from block 3 with skip
`-5` for target 50 returns block 1 even though 1 is already in the probe
history at entry, and registers the raw candidate `-2` instead of the
returned 1 (the clamp to 1 happens after registration). -/
theorem c5_counterexample :
    (calculateNextBlock 1 50 3 (-5) probedOneState).1 = some 1 ∧
    (1 : Int) ∈ probedOneState.checkedBlocks 50 ∧
    (calculateNextBlock 1 50 3 (-5) probedOneState).2.checkedBlocks 50 =
      [1, -2] := by decide

/-- C5 amended: a successful step-calculator call appends exactly one raw
candidate to the probe history of the target timestamp: that raw candidate was
not in the history at entry, the returned block number is the raw candidate
clamped up to 1, histories of other timestamps are untouched, and whenever the
raw candidate is at least 1 the returned number itself is fresh and
registered. -/
theorem c5_registration (fuel : Nat) (t cb : Int) (s : State) :
    ∀ (sk r : Int) (s' : State),
      calculateNextBlock fuel t cb sk s = (some r, s') →
      ∃ raw : Int,
        raw ∉ s.checkedBlocks t ∧
        s'.checkedBlocks t = s.checkedBlocks t ++ [raw] ∧
        r = (if raw < 1 then 1 else raw) ∧
        (∀ u : Int, u ≠ t → s'.checkedBlocks u = s.checkedBlocks u) ∧
        (1 ≤ raw → r = raw ∧ r ∉ s.checkedBlocks t) := by
  induction fuel with
  | zero =>
    intro sk r s' h
    exact absurd h (by simp [calculateNextBlock])
  | succ fuel ih =>
    intro sk r s' h
    simp only [calculateNextBlock] at h
    split at h
    · exact ih _ r s' h
    · rename_i hmem
      rw [Prod.mk.injEq] at h
      obtain ⟨hr0, hs⟩ := h
      have hr := Option.some.inj hr0
      refine ⟨clampToHead s.latestBlock (cb + sk), hmem, ?_, hr.symm, ?_, ?_⟩
      · rw [← hs]
        simp
      · intro u hu
        rw [← hs]
        simp [hu]
      · intro hge
        constructor
        · rw [← hr]
          simp only
            [if_neg (by omega : ¬ clampToHead s.latestBlock (cb + sk) < 1)]
        · rw [← hr]
          simp only
            [if_neg (by omega : ¬ clampToHead s.latestBlock (cb + sk) < 1)]
          exact hmem

/-- C5 witness: a fresh step from block 2 with skip 5 for target 10 returns
7 and registers exactly the raw candidate 7. -/
theorem c5_registration_witness :
    ∃ raw : Int,
      raw ∉ initState.checkedBlocks 10 ∧
      ((calculateNextBlock 1 10 2 5 initState).2).checkedBlocks 10 =
        initState.checkedBlocks 10 ++ [raw] ∧
      (7 : Int) = (if raw < 1 then 1 else raw) ∧
      (∀ u : Int, u ≠ 10 →
        ((calculateNextBlock 1 10 2 5 initState).2).checkedBlocks u =
          initState.checkedBlocks u) ∧
      (1 ≤ raw → (7 : Int) = raw ∧ (7 : Int) ∉ initState.checkedBlocks 10) :=
  c5_registration 1 10 2 initState 5 7
    ((calculateNextBlock 1 10 2 5 initState).2) rfl

/-- C6 counterexample: with a zero average (here `0/5`) and a candidate 500
seconds below the target, the derived skip is 500 — the raw difference — and
not `sign(difference) = +1` as the claim states. -/
theorem c6_counterexample :
    computeSkip 600 100 (some (jsDiv 0 5)) = some 500 ∧ (500 : Int) ≠ 1 := by
  decide

/-- C6 amended: the skip derivation divides the difference by the average
unless the average compares strictly equal to 0, in which case the divisor
falls back to 1 so the skip is the (ceiling of the) raw difference itself;
the coercion to `±1` applies only when the computed ceiling is 0. -/
theorem c6_skip_derivation (t pbTs : Int) (a : JSNumber) (hden : a.den ≠ 0) :
    (a.toRat = 0 → computeSkip t pbTs (some a) =
      some (if t = pbTs then 1 else t - pbTs)) ∧
    (a.toRat ≠ 0 → ⌈((t - pbTs : Int) : ℚ) / a.toRat⌉ ≠ 0 →
      computeSkip t pbTs (some a) =
        some ⌈((t - pbTs : Int) : ℚ) / a.toRat⌉) ∧
    (a.toRat ≠ 0 → ⌈((t - pbTs : Int) : ℚ) / a.toRat⌉ = 0 →
      computeSkip t pbTs (some a) =
        some (if t - pbTs < 0 then -1 else 1)) := by
  refine ⟨?_, ?_, ?_⟩
  · intro hz
    have hiz : a.isZero = true := (JSNumber.isZero_iff a hden).mpr hz
    simp only [computeSkip, hiz, if_pos]
    have hceil : (JSNumber.divInt (t - pbTs) (jsDiv 1 1)).ceil = t - pbTs := by
      rw [JSNumber.ceil_eq_ceil _ (by simp [JSNumber.divInt, jsDiv]),
        JSNumber.toRat_divInt, toRat_jsDiv]
      norm_num
    rw [hceil]
    rcases eq_or_ne t pbTs with he | he
    · subst he
      simp
    · rw [if_neg (by omega), if_neg he]
  · intro hnz hc
    have hiz : a.isZero = false := by
      rcases h : a.isZero with _ | _
      · rfl
      · exact absurd ((JSNumber.isZero_iff a hden).mp h) hnz
    have hnum : a.num ≠ 0 := by
      intro h0
      apply hnz
      unfold JSNumber.toRat
      rw [h0]
      simp
    simp only [computeSkip, hiz, Bool.false_eq_true, if_neg, if_false]
    have hceil : (JSNumber.divInt (t - pbTs) a).ceil =
        ⌈((t - pbTs : Int) : ℚ) / a.toRat⌉ := by
      rw [JSNumber.ceil_eq_ceil _ (by simpa [JSNumber.divInt] using hnum),
        JSNumber.toRat_divInt]
    rw [hceil, if_neg hc]
  · intro hnz hc
    have hiz : a.isZero = false := by
      rcases h : a.isZero with _ | _
      · rfl
      · exact absurd ((JSNumber.isZero_iff a hden).mp h) hnz
    have hnum : a.num ≠ 0 := by
      intro h0
      apply hnz
      unfold JSNumber.toRat
      rw [h0]
      simp
    simp only [computeSkip, hiz, Bool.false_eq_true, if_neg, if_false]
    have hceil : (JSNumber.divInt (t - pbTs) a).ceil =
        ⌈((t - pbTs : Int) : ℚ) / a.toRat⌉ := by
      rw [JSNumber.ceil_eq_ceil _ (by simpa [JSNumber.divInt] using hnum),
        JSNumber.toRat_divInt]
    rw [hceil, if_pos hc]

/-- C6 witness: with average `1/1` and a candidate 600 seconds below the
target, the skip is the ceiling of the quotient, i.e. 600. -/
theorem c6_skip_derivation_witness :
    computeSkip 700 100 (some (jsDiv 1 1)) =
      some ⌈((700 - 100 : Int) : ℚ) / (jsDiv 1 1).toRat⌉ :=
  (c6_skip_derivation 700 100 (jsDiv 1 1) (by decide)).2.1
    (by simp [jsDiv, JSNumber.toRat])
    (by simp [jsDiv, JSNumber.toRat])

/-- A collaborator whose `'latest'` answer is a block numbered 0: the claim
asserts the boundary estimator must fail on any head number at most 1. -/
def chainHeadZero : Chain :=
  { blocks := fun n => { block := n, timestamp := 130 }
    latest := { block := 0, timestamp := 100 } }

/-- C7 counterexample: with a head block numbered 0 (so `latest.number ≤ 1`)
the boundary estimator does not fail — the source has no
`InsufficientChainDataError` and no failure path at all — and it assigns
`averageBlockTime = (100 - 130) / (0 - 1)`. -/
theorem c7_counterexample :
    chainHeadZero.latest.block ≤ 1 ∧
    (initializeBoundaries chainHeadZero initState).averageBlockTime =
      some (jsDiv (-30) (-1)) ∧
    ((initializeBoundaries chainHeadZero initState).averageBlockTime).isSome
      = true := by decide

/-- C7 amended: `initializeBoundaries` never fails: for every chain and every
state it stores both fetched boundary blocks and unconditionally assigns
`averageBlockTime` the quotient `(latest.timestamp - first.timestamp) /
(latest.block - 1)` of the stored blocks; whenever `latest.block ≠ 1` this
quotient is the exact rational division (for `latest.block = 1` the JS
division by zero yields a non-finite float rather than an error). -/
theorem c7_no_failure (c : Chain) (s : State) :
    ∃ lb fb : Block,
      (initializeBoundaries c s).latestBlock = some lb ∧
      (initializeBoundaries c s).firstBlock = some fb ∧
      (initializeBoundaries c s).averageBlockTime =
        some (jsDiv (lb.timestamp - fb.timestamp) (lb.block - 1)) ∧
      (lb.block ≠ 1 →
        (jsDiv (lb.timestamp - fb.timestamp) (lb.block - 1)).toRat =
          ((lb.timestamp - fb.timestamp : Int) : ℚ) / ((lb.block : ℚ) - 1)) := by
  obtain ⟨lb, fb, h1, h2, h3⟩ := initializeBoundaries_always c s
  refine ⟨lb, fb, h1, h2, h3, fun _ => ?_⟩
  rw [toRat_jsDiv]
  push_cast
  ring_nf

/-- C7 amended witness: instantiated on the head-zero chain from a fresh
state. -/
theorem c7_no_failure_witness :
    ∃ lb fb : Block,
      (initializeBoundaries chainHeadZero initState).latestBlock = some lb ∧
      (initializeBoundaries chainHeadZero initState).firstBlock = some fb ∧
      (initializeBoundaries chainHeadZero initState).averageBlockTime =
        some (jsDiv (lb.timestamp - fb.timestamp) (lb.block - 1)) ∧
      (lb.block ≠ 1 →
        (jsDiv (lb.timestamp - fb.timestamp) (lb.block - 1)).toRat =
          ((lb.timestamp - fb.timestamp : Int) : ℚ) /
            ((lb.block : ℚ) - 1)) :=
  c7_no_failure chainHeadZero initState

/-- A three-block chain in which blocks 2 and 3 share timestamp 20. -/
def chainFlat : Chain :=
  { blocks := fun n =>
      if n = 1 then { block := 1, timestamp := 10 }
      else { block := n, timestamp := 20 }
    latest := { block := 3, timestamp := 20 } }

/-- A session state mid-way through resolving: boundaries cached, average
estimate `1/1`. -/
def stateMidSession : State :=
  { cachedBlocks := []
    checkedBlocks := fun _ => []
    firstBlock := some { block := 1, timestamp := 10 }
    latestBlock := some { block := 3, timestamp := 20 }
    averageBlockTime := some (jsDiv 1 1)
    requests := 0 }

/-- C8 counterexample: one probe step from block 2 (timestamp 20) toward
target 25 probes block 3, whose timestamp is also 20, and the per-probe
update writes `averageBlockTime = |(20 - 20) / (2 - 3)| = 0`: the field is
defined but not strictly positive, and no zero-guard intervened. -/
theorem c8_counterexample :
    (findOptimalBlock chainFlat 2 25 { block := 2, timestamp := 20 }
      stateMidSession).2.averageBlockTime = some (jsDiv 0 1) ∧
    ¬ (0 : ℚ) < (jsDiv 0 1).toRat := by
  constructor
  · decide
  · simp [jsDiv, JSNumber.toRat]

/-- C8 amended: the search loop either leaves `averageBlockTime` unchanged or
writes a value of the form `|x / y|`, which is nonnegative — but not
necessarily strictly positive (it is zero whenever two consecutive probes
share a timestamp, since the source has no zero-numerator or
zero-denominator guard). -/
theorem c8_avg_nonneg (c : Chain) (fuel : Nat) (t : Int) (pb : Block)
    (s : State) :
    (findOptimalBlock c fuel t pb s).2.averageBlockTime =
      s.averageBlockTime ∨
    ∃ q : JSNumber,
      (findOptimalBlock c fuel t pb s).2.averageBlockTime = some q ∧
      0 ≤ q.toRat := by
  rcases findOptimalBlock_avgWrite c fuel t pb s with h | ⟨x, y, h⟩
  · exact Or.inl h
  · refine Or.inr ⟨_, h, ?_⟩
    rw [JSNumber.toRat_abs]
    exact abs_nonneg _

theorem length_filter_le_of_imp (p q : Int → Bool)
    (himp : ∀ x, p x = true → q x = true) :
    ∀ l : List Int, (l.filter p).length ≤ (l.filter q).length := by
  intro l
  induction l with
  | nil => simp
  | cons b l ih =>
    by_cases hpb : p b = true
    · rw [List.filter_cons_of_pos hpb, List.filter_cons_of_pos (himp b hpb)]
      simpa using ih
    · rw [List.filter_cons_of_neg (by simpa using hpb)]
      by_cases hqb : q b = true
      · rw [List.filter_cons_of_pos hqb]
        exact ih.trans (by simp)
      · rw [List.filter_cons_of_neg (by simpa using hqb)]
        exact ih

theorem length_filter_lt_of_mem (p q : Int → Bool)
    (himp : ∀ x, p x = true → q x = true) (a : Int)
    (hpa : p a = false) (hqa : q a = true) :
    ∀ l : List Int, a ∈ l →
      (l.filter p).length < (l.filter q).length := by
  intro l
  induction l with
  | nil => intro h; cases h
  | cons b l ih =>
    intro hmem
    by_cases hb : b = a
    · subst hb
      rw [List.filter_cons_of_neg (by simp [hpa]), List.filter_cons_of_pos hqa]
      exact Nat.lt_succ_of_le (length_filter_le_of_imp p q himp l)
    · have hmem' : a ∈ l := by
        rcases List.mem_cons.mp hmem with h | h
        · exact absurd h.symm hb
        · exact h
      by_cases hpb : p b = true
      · rw [List.filter_cons_of_pos hpb, List.filter_cons_of_pos (himp b hpb)]
        simpa using ih hmem'
      · rw [List.filter_cons_of_neg (by simpa using hpb)]
        by_cases hqb : q b = true
        · rw [List.filter_cons_of_pos hqb]
          exact (ih hmem').trans (by simp)
        · rw [List.filter_cons_of_neg (by simpa using hqb)]
          exact ih hmem'

/-- A state in which the head block (number 5) has already been probed for
target 100: from here, any positive skip that overshoots the head makes
`calculateNextBlock` recurse forever (the clamped candidate is always the
already-probed head, and growing the skip never changes that). -/
def headProbedState : State :=
  { cachedBlocks := []
    checkedBlocks := fun u => if u = 100 then [5] else []
    firstBlock := none
    latestBlock := some { block := 5, timestamp := 999 }
    averageBlockTime := none
    requests := 0 }

theorem calculateNextBlock_stuck :
    ∀ (fuel : Nat) (sk : Int), 1 ≤ sk →
      (calculateNextBlock fuel 100 5 sk headProbedState).1 = none := by
  intro fuel
  induction fuel with
  | zero => intro sk _; rfl
  | succ fuel ih =>
    intro sk hsk
    simp only [calculateNextBlock]
    have hclamp : clampToHead headProbedState.latestBlock (5 + sk) = 5 := by
      simp only [headProbedState, clampToHead]
      rw [if_pos (by omega)]
    rw [hclamp]
    have hmem : (5 : Int) ∈ headProbedState.checkedBlocks 100 := by decide
    rw [if_pos hmem, if_neg (by omega : ¬ sk < 0)]
    exact ih (sk + 1) (by omega)

/-- C3 counterexample: from a state whose probe history for target 100
already contains the head block 5, the step-calculator call with current
block 5 and skip 1 does not terminate: it yields no result no matter how
much fuel it is given. -/
theorem c3_counterexample :
    ¬ ∃ (fuel : Nat) (r : Int) (s' : State),
      calculateNextBlock fuel 100 5 1 headProbedState = (some r, s') := by
  rintro ⟨fuel, r, s', h⟩
  have hnone := calculateNextBlock_stuck fuel 1 (by omega)
  rw [h] at hnone
  exact absurd hnone (by simp)

/-- Termination measure for a negative skip: how far the candidate overshoots
the head, plus how many probed entries sit at or below the clamped
candidate. -/
def negMeasure (s : State) (t cb sk : Int) : Nat :=
  (match s.latestBlock with
   | some lb => (cb + sk - lb.block).toNat
   | none => 0) +
  ((s.checkedBlocks t).filter
    (fun y => decide (y ≤ clampToHead s.latestBlock (cb + sk)))).length

theorem negMeasure_decrease (s : State) (t cb sk : Int)
    (hmem : clampToHead s.latestBlock (cb + sk) ∈ s.checkedBlocks t) :
    negMeasure s t cb (sk - 1) < negMeasure s t cb sk := by
  unfold negMeasure
  cases hlb : s.latestBlock with
  | none =>
    rw [hlb] at hmem
    simp only [hlb, clampToHead] at hmem ⊢
    have := length_filter_lt_of_mem
      (fun y => decide (y ≤ cb + (sk - 1)))
      (fun y => decide (y ≤ cb + sk))
      (fun x hx => by
        rw [decide_eq_true_eq] at hx ⊢
        omega)
      (cb + sk)
      (by rw [decide_eq_false_iff_not]; omega)
      (by rw [decide_eq_true_eq])
      (s.checkedBlocks t) hmem
    omega
  | some lb =>
    rw [hlb] at hmem
    simp only [hlb]
    by_cases hgt : cb + sk > lb.block
    · have hc1 : clampToHead (some lb) (cb + sk) = lb.block := by
        simp only [clampToHead]
        rw [if_pos hgt]
      have hc2 : clampToHead (some lb) (cb + (sk - 1)) = lb.block := by
        simp only [clampToHead]
        split <;> omega
      rw [hc1, hc2]
      have htn : (cb + (sk - 1) - lb.block).toNat < (cb + sk - lb.block).toNat := by
        omega
      omega
    · have hc1 : clampToHead (some lb) (cb + sk) = cb + sk := by
        simp only [clampToHead]
        rw [if_neg hgt]
      have hc2 : clampToHead (some lb) (cb + (sk - 1)) = cb + (sk - 1) := by
        simp only [clampToHead]
        rw [if_neg (by omega)]
      rw [hc1] at hmem
      rw [hc1, hc2]
      have := length_filter_lt_of_mem
        (fun y => decide (y ≤ cb + (sk - 1)))
        (fun y => decide (y ≤ cb + sk))
        (fun x hx => by
          rw [decide_eq_true_eq] at hx ⊢
          omega)
        (cb + sk)
        (by rw [decide_eq_false_iff_not]; omega)
        (by rw [decide_eq_true_eq])
        (s.checkedBlocks t) hmem
      omega

theorem calculateNextBlock_term_neg :
    ∀ (n : Nat) (t cb : Int) (s : State) (sk : Int), sk < 0 →
      negMeasure s t cb sk ≤ n →
      ∃ r s', calculateNextBlock (n + 1) t cb sk s = (some r, s') := by
  intro n
  induction n with
  | zero =>
    intro t cb s sk hsk hm
    by_cases hmem : clampToHead s.latestBlock (cb + sk) ∈ s.checkedBlocks t
    · exfalso
      have h1 : clampToHead s.latestBlock (cb + sk) ∈
          (s.checkedBlocks t).filter
            (fun y => decide (y ≤ clampToHead s.latestBlock (cb + sk))) :=
        List.mem_filter.mpr ⟨hmem, by simp⟩
      have h2 := List.length_pos.mpr (List.ne_nil_of_mem h1)
      unfold negMeasure at hm
      omega
    · exact ⟨_, _, by simp only [calculateNextBlock]; rw [if_neg hmem]⟩
  | succ n ih =>
    intro t cb s sk hsk hm
    by_cases hmem : clampToHead s.latestBlock (cb + sk) ∈ s.checkedBlocks t
    · have hdec := negMeasure_decrease s t cb sk hmem
      obtain ⟨r, s', hr⟩ := ih t cb s (sk - 1) (by omega) (by omega)
      refine ⟨r, s', ?_⟩
      simp only [calculateNextBlock]
      rw [if_pos hmem, if_pos hsk]
      exact hr
    · exact ⟨_, _, by simp only [calculateNextBlock]; rw [if_neg hmem]⟩

theorem calculateNextBlock_term_pos_nohead :
    ∀ (n : Nat) (t cb : Int) (s : State) (sk : Int), 0 < sk →
      s.latestBlock = none →
      ((s.checkedBlocks t).filter
        (fun y => decide (cb + sk ≤ y))).length ≤ n →
      ∃ r s', calculateNextBlock (n + 1) t cb sk s = (some r, s') := by
  intro n
  induction n with
  | zero =>
    intro t cb s sk hsk hlb hm
    by_cases hmem : clampToHead s.latestBlock (cb + sk) ∈ s.checkedBlocks t
    · exfalso
      rw [hlb] at hmem
      simp only [clampToHead] at hmem
      have h1 : cb + sk ∈ (s.checkedBlocks t).filter
          (fun y => decide (cb + sk ≤ y)) :=
        List.mem_filter.mpr ⟨hmem, by simp⟩
      have h2 := List.length_pos.mpr (List.ne_nil_of_mem h1)
      omega
    · exact ⟨_, _, by simp only [calculateNextBlock]; rw [if_neg hmem]⟩
  | succ n ih =>
    intro t cb s sk hsk hlb hm
    by_cases hmem : clampToHead s.latestBlock (cb + sk) ∈ s.checkedBlocks t
    · have hmem' : cb + sk ∈ s.checkedBlocks t := by
        rw [hlb] at hmem
        simpa only [clampToHead] using hmem
      have hdec := length_filter_lt_of_mem
        (fun y => decide (cb + (sk + 1) ≤ y))
        (fun y => decide (cb + sk ≤ y))
        (fun x hx => by
          rw [decide_eq_true_eq] at hx ⊢
          omega)
        (cb + sk)
        (by rw [decide_eq_false_iff_not]; omega)
        (by rw [decide_eq_true_eq])
        (s.checkedBlocks t) hmem'
      obtain ⟨r, s', hr⟩ := ih t cb s (sk + 1) (by omega) hlb (by omega)
      refine ⟨r, s', ?_⟩
      simp only [calculateNextBlock]
      rw [if_pos hmem, if_neg (by omega : ¬ sk < 0)]
      exact hr
    · exact ⟨_, _, by simp only [calculateNextBlock]; rw [if_neg hmem]⟩

theorem calculateNextBlock_term_pos_head :
    ∀ (n : Nat) (t cb : Int) (s : State) (sk : Int) (lb : Block), 0 < sk →
      s.latestBlock = some lb →
      (lb.block ∉ s.checkedBlocks t ∨
        ∃ m : Int, cb + sk ≤ m ∧ m ≤ lb.block ∧ m ∉ s.checkedBlocks t) →
      ((s.checkedBlocks t).filter
        (fun y => decide (cb + sk ≤ y ∧ y ≤ lb.block))).length ≤ n →
      ∃ r s', calculateNextBlock (n + 1) t cb sk s = (some r, s') := by
  intro n
  induction n with
  | zero =>
    intro t cb s sk lb hsk hlb hinv hm
    by_cases hmem : clampToHead s.latestBlock (cb + sk) ∈ s.checkedBlocks t
    · exfalso
      rw [hlb] at hmem
      simp only [clampToHead] at hmem
      by_cases hgt : cb + sk > lb.block
      · rw [if_pos hgt] at hmem
        rcases hinv with hout | ⟨m, hm1, hm2, hm3⟩
        · exact hout hmem
        · omega
      · rw [if_neg hgt] at hmem
        have h1 : cb + sk ∈ (s.checkedBlocks t).filter
            (fun y => decide (cb + sk ≤ y ∧ y ≤ lb.block)) :=
          List.mem_filter.mpr ⟨hmem, by
            rw [decide_eq_true_eq]
            omega⟩
        have h2 := List.length_pos.mpr (List.ne_nil_of_mem h1)
        omega
    · exact ⟨_, _, by simp only [calculateNextBlock]; rw [if_neg hmem]⟩
  | succ n ih =>
    intro t cb s sk lb hsk hlb hinv hm
    by_cases hmem : clampToHead s.latestBlock (cb + sk) ∈ s.checkedBlocks t
    · have hmem0 := hmem
      rw [hlb] at hmem0
      simp only [clampToHead] at hmem0
      by_cases hgt : cb + sk > lb.block
      · exfalso
        rw [if_pos hgt] at hmem0
        rcases hinv with hout | ⟨m, hm1, hm2, hm3⟩
        · exact hout hmem0
        · omega
      · rw [if_neg hgt] at hmem0
        have hinv' : lb.block ∉ s.checkedBlocks t ∨
            ∃ m : Int, cb + (sk + 1) ≤ m ∧ m ≤ lb.block ∧
              m ∉ s.checkedBlocks t := by
          rcases hinv with hout | ⟨m, hm1, hm2, hm3⟩
          · exact Or.inl hout
          · refine Or.inr ⟨m, ?_, hm2, hm3⟩
            have : m ≠ cb + sk := fun he => hm3 (he ▸ hmem0)
            omega
        have hdec := length_filter_lt_of_mem
          (fun y => decide (cb + (sk + 1) ≤ y ∧ y ≤ lb.block))
          (fun y => decide (cb + sk ≤ y ∧ y ≤ lb.block))
          (fun x hx => by
            rw [decide_eq_true_eq] at hx ⊢
            omega)
          (cb + sk)
          (by rw [decide_eq_false_iff_not]; omega)
          (by rw [decide_eq_true_eq]; omega)
          (s.checkedBlocks t) hmem0
        obtain ⟨r, s', hr⟩ := ih t cb s (sk + 1) lb (by omega) hlb hinv'
          (by omega)
        refine ⟨r, s', ?_⟩
        simp only [calculateNextBlock]
        rw [if_pos hmem, if_neg (by omega : ¬ sk < 0)]
        exact hr
    · exact ⟨_, _, by simp only [calculateNextBlock]; rw [if_neg hmem]⟩

/-- C3 amended: the step calculator terminates for every negative skip; for a
positive skip it terminates whenever no chain head is set, or some block
between the candidate `currentBlock + skip` and the head (in particular the
head itself when the candidate overshoots) is still unprobed for the target.
Without such a block it recurses forever (see the C3 counterexample), so the
claim's unconditional termination — and with it the `N`-probe bound for
resolution — does not hold. -/
theorem c3_conditional_termination (t cb sk : Int) (s : State)
    (hsk : sk ≠ 0)
    (hcond : sk < 0 ∨ s.latestBlock = none ∨
      ∃ lb, s.latestBlock = some lb ∧
        (lb.block ∉ s.checkedBlocks t ∨
          ∃ m : Int, cb + sk ≤ m ∧ m ≤ lb.block ∧
            m ∉ s.checkedBlocks t)) :
    ∃ (fuel : Nat) (r : Int) (s' : State),
      calculateNextBlock fuel t cb sk s = (some r, s') := by
  rcases hcond with hneg | hnone | ⟨lb, hlb, hinv⟩
  · obtain ⟨r, s', hr⟩ := calculateNextBlock_term_neg
      (negMeasure s t cb sk) t cb s sk hneg (le_refl _)
    exact ⟨_, r, s', hr⟩
  · rcases lt_or_gt_of_ne hsk with hneg | hpos
    · obtain ⟨r, s', hr⟩ := calculateNextBlock_term_neg
        (negMeasure s t cb sk) t cb s sk hneg (le_refl _)
      exact ⟨_, r, s', hr⟩
    · obtain ⟨r, s', hr⟩ := calculateNextBlock_term_pos_nohead
        (((s.checkedBlocks t).filter
          (fun y => decide (cb + sk ≤ y))).length) t cb s sk hpos hnone
        (le_refl _)
      exact ⟨_, r, s', hr⟩
  · rcases lt_or_gt_of_ne hsk with hneg | hpos
    · obtain ⟨r, s', hr⟩ := calculateNextBlock_term_neg
        (negMeasure s t cb sk) t cb s sk hneg (le_refl _)
      exact ⟨_, r, s', hr⟩
    · obtain ⟨r, s', hr⟩ := calculateNextBlock_term_pos_head
        (((s.checkedBlocks t).filter
          (fun y => decide (cb + sk ≤ y ∧ y ≤ lb.block))).length)
        t cb s sk lb hpos hlb hinv (le_refl _)
      exact ⟨_, r, s', hr⟩

/-- C3 amended witness: a fresh state has nothing probed, so a step from
block 200 with skip `-7` terminates. -/
theorem c3_conditional_termination_witness :
    ∃ (fuel : Nat) (r : Int) (s' : State),
      calculateNextBlock fuel 100 200 (-7) initState = (some r, s') :=
  c3_conditional_termination 100 200 (-7) initState (by omega)
    (Or.inl (by omega))

/-- C9: on a chain with strictly increasing timestamps whose head is block 1
or later, two successful resolutions of targets `t1 < t2` from fresh sessions
return block numbers in the same order. -/
theorem c9_monotonicity (c : Chain) (t1 t2 : Int) (fuel1 fuel2 : Nat)
    (b1 b2 : Block) (s1' s2' : State)
    (hchain : ChainOk c)
    (hlatest : c.latest = c.blocks c.latest.block)
    (hmono : ∀ m n : Int, m < n →
      (c.blocks m).timestamp < (c.blocks n).timestamp)
    (hpos : 1 ≤ c.latest.block)
    (ht : t1 < t2)
    (h1 : getBlockFromTimestamp c fuel1 t1 initState = (some b1, s1'))
    (h2 : getBlockFromTimestamp c fuel2 t2 initState = (some b2, s2')) :
    b1.block ≤ b2.block := by
  obtain ⟨-, hc1⟩ := getBlock_characterization c fuel1 t1 initState b1 s1'
    hchain (cacheOk_initState c) (boundariesOk_initState c) h1
  obtain ⟨-, hc2⟩ := getBlock_characterization c fuel2 t2 initState b2 s2'
    hchain (cacheOk_initState c) (boundariesOk_initState c) h2
  have hmono' : ∀ m n : Int, m ≤ n →
      (c.blocks m).timestamp ≤ (c.blocks n).timestamp := by
    intro m n h
    rcases eq_or_lt_of_le h with he | hl
    · rw [he]
    · exact (hmono m n hl).le
  have hlt_ts : c.latest.timestamp = (c.blocks c.latest.block).timestamp := by
    rw [← hlatest]
  rcases hc1 with ⟨hA1, hB1⟩ | ⟨hA1, hA1l, hB1⟩ | ⟨hA1, hA1l, hO1a, hO1b⟩
  · rcases hc2 with ⟨hA2, hB2⟩ | ⟨hA2, hA2l, hB2⟩ | ⟨hA2, hA2l, hO2a, hO2b⟩
    · rw [hB1, hB2]
    · rw [hB1, hB2]
      exact hpos
    · rw [hB1]
      by_contra hcon
      have hlt1 := hmono b2.block 1 (by omega)
      omega
  · rcases hc2 with ⟨hA2, hB2⟩ | ⟨hA2, hA2l, hB2⟩ | ⟨hA2, hA2l, hO2a, hO2b⟩
    · omega
    · rw [hB1, hB2]
    · omega
  · rcases hc2 with ⟨hA2, hB2⟩ | ⟨hA2, hA2l, hB2⟩ | ⟨hA2, hA2l, hO2a, hO2b⟩
    · omega
    · rw [hB2]
      by_contra hcon
      have hle := hmono' c.latest.block (b1.block - 1) (by omega)
      omega
    · by_contra hcon
      have hle := hmono' b2.block (b1.block - 1) (by omega)
      omega

/-- C9 witness: on the concrete chain, `T = 500` resolves to block 1 and
`T = 1325` to block 33, and `1 ≤ 33`. -/
theorem c9_monotonicity_witness :
    (Block.mk 1 500).block ≤ (Block.mk 33 1325).block :=
  c9_monotonicity chain100 500 1325 5 5 (Block.mk 1 500) (Block.mk 33 1325)
    ((getBlockFromTimestamp chain100 5 500 initState).2)
    ((getBlockFromTimestamp chain100 5 1325 initState).2)
    (fun _ => rfl) (by decide)
    (fun m n h => by
      simp only [chain100]
      omega)
    (by decide) (by decide) rfl rfl
